import Mathlib

/-!
SoNodeEngine: output lookup, notification and evaluation.

A shallow embedding of `src/engines/SoNodeEngine.cpp` (Coin 3D).

* Pointers that the source compares with `NULL` are `Option` values, and every `p->m()` in
  the source is a `deref p` in the embedding, which faults on `none`.
* `SoEngineOutputData`, `SoEngineOutput`, `SoNotList` and the virtual methods of the
  concrete engine are declared outside this file; they are parameters of the embedding.
* The code the engine calls out to (the `inputChanged` / `evaluate` overrides and the slot
  methods) is a `Prog`: it may change everything it can reach (the `world`) and may call the
  public `notify` of the same engine again, but it cannot touch the private `flags` word.
* Each call the engine makes is appended to a ghost `trace`, together with the value of
  `flags` at the moment of the call.
-/

namespace SoNodeEngine

/-! ## Data model -/

/-- The per-class output descriptor table (`SoEngineOutputData`), as seen through the three
accessors the engine uses. `getOutput i` stands for `outputs->getOutput(this, i)`. -/
structure SoEngineOutputData (Name Slot : Type) where
  getNumOutputs : Nat
  getOutput : Nat → Slot
  getOutputName : Nat → Name

/-- Code outside the engine: the hooks and the slot methods. -/
inductive Prog (W NL : Type) where
  | done : Prog W NL
  | act (f : W → W) (k : Prog W NL) : Prog W NL
  | look (k : W → Prog W NL) : Prog W NL
  | notify (nl : NL) (k : Prog W NL) : Prog W NL

/-- The calls the engine makes to code outside this file. -/
inductive Call (Slot Field NL : Type) where
  | inputChanged (which : Field)
  | touchSlaves (o : Slot) (nl : NL) (donotify : Bool)
  | prepareToWrite (o : Slot)
  | evaluate
  | doneWriting (o : Slot)
  | baseDestroy
  deriving DecidableEq, Repr

/-- One entry of the ghost trace: the call and the `flags` word when it was made. -/
structure Logged (Slot Field NL : Type) where
  call : Call Slot Field NL
  flags : Nat
  deriving DecidableEq, Repr

/-- The engine instance: the private `flags` word, everything else the hooks can reach, and
the ghost trace. -/
structure St (W Slot Field NL : Type) where
  flags : Nat
  world : W
  trace : List (Logged Slot Field NL)
  deriving DecidableEq

/-- What the concrete subclass and the collaborating classes supply. -/
structure Engine (W Name Slot Field NL : Type) where
  getOutputData : Option (SoEngineOutputData Name Slot)
  isNotifyEnabled : W → Bool
  getLastField : NL → Field
  inputChanged : Field → Prog W NL
  evaluate : Prog W NL
  touchSlaves : Slot → NL → Bool → Prog W NL
  prepareToWrite : Slot → Prog W NL
  doneWriting : Slot → Prog W NL
  baseDestroy : Prog W NL

/-- Faults of the pure lookups. -/
inductive Fault where
  | nullDeref
  deriving DecidableEq, Repr

/-- Outcome of a state-changing method: normal return, a `NULL` dereference (with the state
at that point), or the call depth bound of the embedding exhausted. -/
inductive Res (σ : Type) where
  | ok (s : σ)
  | nullDeref (s : σ)
  | outOfFuel
  deriving DecidableEq

def Res.bind {σ : Type} : Res σ → (σ → Res σ) → Res σ
  | .ok s, f => f s
  | .nullDeref s, _ => .nullDeref s
  | .outOfFuel, _ => .outOfFuel

/-- Dereference `p->...` of a pointer that may be `NULL`. -/
def deref {α : Type} : Option α → Except Fault α
  | none => .error .nullDeref
  | some a => .ok a

/-- The constant of `#define FLAG_ISNOTIFYING 0x1`. -/
def FLAG_ISNOTIFYING : Nat := 0x1

/-- The value of `~FLAG_ISNOTIFYING` converted to the 32-bit `unsigned int` of `flags`. -/
def NOT_FLAG_ISNOTIFYING : Nat := 2 ^ 32 - 1 - FLAG_ISNOTIFYING

section
variable {W Name Slot Field NL : Type}

/-- Constructor `SoNodeEngine::SoNodeEngine`: `this->flags = 0`. -/
def construct (w : W) : St W Slot Field NL :=
  { flags := 0, world := w, trace := [] }

/-! ## Lookups -/

/-- The loop of `getOutputs`; `k` iterations remain, `i` is the loop index. -/
def getOutputsLoop (outputs : SoEngineOutputData Name Slot) :
    Nat → Nat → List Slot → List Slot
  | 0, _, l => l
  | k + 1, i, l => getOutputsLoop outputs k (i + 1) (l ++ [outputs.getOutput i])

/-- Method `SoNodeEngine::getOutputs`: the returned count and the caller's list afterwards. -/
def getOutputs (E : Engine W Name Slot Field NL) (l : List Slot) :
    Except Fault (Nat × List Slot) :=
  let outputs := E.getOutputData
  if outputs.isNone then .ok (0, l)
  else
    (deref outputs).bind fun o =>
      let n := o.getNumOutputs
      .ok (n, getOutputsLoop o n 0 l)

/-- The loop of `getOutput`. -/
def getOutputLoop [DecidableEq Name] (outputs : SoEngineOutputData Name Slot)
    (outputname : Name) : Nat → Nat → Option Slot
  | 0, _ => none
  | k + 1, i =>
    if outputs.getOutputName i = outputname then some (outputs.getOutput i)
    else getOutputLoop outputs outputname k (i + 1)

/-- Method `SoNodeEngine::getOutput`: `none` is the `NULL` result. -/
def getOutput [DecidableEq Name] (E : Engine W Name Slot Field NL) (outputname : Name) :
    Except Fault (Option Slot) :=
  let outputs := E.getOutputData
  if outputs.isNone then .ok none
  else
    (deref outputs).bind fun o =>
      let n := o.getNumOutputs
      .ok (getOutputLoop o outputname n 0)

/-- The loop of `getOutputName`: the returned flag and the caller's name variable. -/
def getOutputNameLoop [DecidableEq Slot] (outputs : SoEngineOutputData Name Slot)
    (output : Slot) (outputname : Name) : Nat → Nat → Bool × Name
  | 0, _ => (false, outputname)
  | k + 1, i =>
    if outputs.getOutput i = output then (true, outputs.getOutputName i)
    else getOutputNameLoop outputs output outputname k (i + 1)

/-- Method `SoNodeEngine::getOutputName`: the returned flag and the by-reference `outputname`
afterwards. -/
def getOutputName [DecidableEq Slot] (E : Engine W Name Slot Field NL) (output : Slot)
    (outputname : Name) : Except Fault (Bool × Name) :=
  let outputs := E.getOutputData
  if outputs.isNone then .ok (false, outputname)
  else
    (deref outputs).bind fun o =>
      let n := o.getNumOutputs
      .ok (getOutputNameLoop o output outputname n 0)

/-! ## Notification and evaluation -/

/-- Method `SoNodeEngine::isNotifying`: `(this->flags & FLAG_ISNOTIFYING) != 0`. -/
def isNotifying (s : St W Slot Field NL) : Bool :=
  (s.flags &&& FLAG_ISNOTIFYING) != 0

/-- Running outside code; `nfy` is the engine's own `notify`, for the calls back into it. -/
def Prog.run (nfy : NL → St W Slot Field NL → Res (St W Slot Field NL)) :
    Prog W NL → St W Slot Field NL → Res (St W Slot Field NL)
  | .done, s => .ok s
  | .act f k, s => Prog.run nfy k { s with world := f s.world }
  | .look k, s => Prog.run nfy (k s.world) s
  | .notify nl k, s => (nfy nl s).bind (Prog.run nfy k)

/-- One call out of the engine: logged, then run. -/
def callOut (nfy : NL → St W Slot Field NL → Res (St W Slot Field NL))
    (c : Call Slot Field NL) (p : Prog W NL) (s : St W Slot Field NL) :
    Res (St W Slot Field NL) :=
  p.run nfy { s with trace := s.trace ++ [⟨c, s.flags⟩] }

/-- The `touchSlaves` loop of `notify`. -/
def touchLoop (E : Engine W Name Slot Field NL)
    (nfy : NL → St W Slot Field NL → Res (St W Slot Field NL))
    (outputs : SoEngineOutputData Name Slot) (nl : NL) :
    Nat → Nat → St W Slot Field NL → Res (St W Slot Field NL)
  | 0, _, s => .ok s
  | k + 1, i, s =>
    let donotify := E.isNotifyEnabled s.world
    (callOut nfy (.touchSlaves (outputs.getOutput i) nl donotify)
        (E.touchSlaves (outputs.getOutput i) nl donotify) s).bind
      (touchLoop E nfy outputs nl k (i + 1))

/-- Method `SoNodeEngine::notify`. The first argument bounds the depth of nested `notify` calls. -/
def notify (E : Engine W Name Slot Field NL) :
    Nat → NL → St W Slot Field NL → Res (St W Slot Field NL)
  | 0, _, _ => .outOfFuel
  | fuel + 1, nl, s =>
    if isNotifying s then .ok s
    else
      let s1 := { s with flags := s.flags ||| FLAG_ISNOTIFYING }
      let which := E.getLastField nl
      (callOut (fun nl2 t => notify E fuel nl2 t) (.inputChanged which)
          (E.inputChanged which) s1).bind fun s2 =>
        match E.getOutputData with
        | none => .nullDeref s2
        | some outputs =>
          let numoutputs := outputs.getNumOutputs
          (touchLoop E (fun nl2 t => notify E fuel nl2 t) outputs nl numoutputs 0 s2).bind
            fun s3 => .ok { s3 with flags := s3.flags &&& NOT_FLAG_ISNOTIFYING }

/-- The two loops of `evaluateWrapper`: `mk` is the logged call and `hook` the slot method
(`prepareToWrite` or `doneWriting`). -/
def slotLoop (nfy : NL → St W Slot Field NL → Res (St W Slot Field NL))
    (outputs : SoEngineOutputData Name Slot) (mk : Slot → Call Slot Field NL)
    (hook : Slot → Prog W NL) :
    Nat → Nat → St W Slot Field NL → Res (St W Slot Field NL)
  | 0, _, s => .ok s
  | k + 1, i, s =>
    (callOut nfy (mk (outputs.getOutput i)) (hook (outputs.getOutput i)) s).bind
      (slotLoop nfy outputs mk hook k (i + 1))

/-- Method `SoNodeEngine::evaluateWrapper`. -/
def evaluateWrapper (E : Engine W Name Slot Field NL) (fuel : Nat)
    (s : St W Slot Field NL) : Res (St W Slot Field NL) :=
  match E.getOutputData with
  | none => .nullDeref s
  | some outputs =>
    let n := outputs.getNumOutputs
    (slotLoop (notify E fuel) outputs .prepareToWrite E.prepareToWrite n 0 s).bind fun s1 =>
      (callOut (notify E fuel) .evaluate E.evaluate s1).bind fun s2 =>
        slotLoop (notify E fuel) outputs .doneWriting E.doneWriting n 0 s2

/-- Method `SoNodeEngine::destroy`: `evaluateWrapper()` and then `inherited::destroy()`. -/
def destroy (E : Engine W Name Slot Field NL) (fuel : Nat)
    (s : St W Slot Field NL) : Res (St W Slot Field NL) :=
  (evaluateWrapper E fuel s).bind fun s1 =>
    callOut (notify E fuel) .baseDestroy E.baseDestroy s1

/-! ## Reference definitions used to state the properties -/

/-- The effect of outside code on the world when its calls back into `notify` do nothing. -/
def Prog.effect : Prog W NL → W → W
  | .done, w => w
  | .act f k, w => Prog.effect k (f w)
  | .look k, w => Prog.effect (k w) w
  | .notify _ k, w => Prog.effect k w

/-- Reference for step 4 of the notification pass, following the specification: for every
output slot in table order, touch its slaves, passing the notification list and whether
notification is enabled at that moment. This is the world after the slots `i .. i + k - 1`. -/
def specTouchWorld (E : Engine W Name Slot Field NL) (T : SoEngineOutputData Name Slot)
    (nl : NL) : Nat → Nat → W → W
  | 0, _, w => w
  | k + 1, i, w =>
    specTouchWorld E T nl k (i + 1)
      ((E.touchSlaves (T.getOutput i) nl (E.isNotifyEnabled w)).effect w)

/-- Reference for step 4 of the notification pass, following the specification: the
`touchSlaves` calls for the slots `i .. i + k - 1`, in table order, each with the
notification list and the notify-enabled state read just before the call. -/
def specTouchCalls (E : Engine W Name Slot Field NL) (T : SoEngineOutputData Name Slot)
    (nl : NL) : Nat → Nat → W → List (Call Slot Field NL)
  | 0, _, _ => []
  | k + 1, i, w =>
    .touchSlaves (T.getOutput i) nl (E.isNotifyEnabled w) ::
      specTouchCalls E T nl k (i + 1)
        ((E.touchSlaves (T.getOutput i) nl (E.isNotifyEnabled w)).effect w)

/-- The slot of a `touchSlaves` call. -/
def Call.touched : Call Slot Field NL → Option Slot
  | .touchSlaves o _ _ => some o
  | _ => none

/-- The calls made by `evaluateWrapper` and `destroy` themselves. -/
def Call.ofEvaluation : Call Slot Field NL → Bool
  | .prepareToWrite _ => true
  | .evaluate => true
  | .doneWriting _ => true
  | .baseDestroy => true
  | _ => false

/-- The calls of a trace that were made by `evaluateWrapper` and `destroy`, in order. -/
def evalCalls (tr : List (Logged Slot Field NL)) : List (Call Slot Field NL) :=
  (tr.map fun e => e.call).filter Call.ofEvaluation

/-- Reference for a whole notification pass on an engine with table `T`, following the
specification (4.5): nothing when the flag is already set; otherwise the `inputChanged` call
and one `touchSlaves` call per slot in table order, made with the flag set, and the flag
cleared at the end. -/
def specNotify (E : Engine W Name Slot Field NL) (T : SoEngineOutputData Name Slot)
    (nl : NL) (s : St W Slot Field NL) : St W Slot Field NL :=
  if isNotifying s then s
  else
    { flags := (s.flags ||| FLAG_ISNOTIFYING) &&& NOT_FLAG_ISNOTIFYING
      world := specTouchWorld E T nl T.getNumOutputs 0
        ((E.inputChanged (E.getLastField nl)).effect s.world)
      trace := s.trace ++
        (⟨.inputChanged (E.getLastField nl), s.flags ||| FLAG_ISNOTIFYING⟩ ::
          (specTouchCalls E T nl T.getNumOutputs 0
            ((E.inputChanged (E.getLastField nl)).effect s.world)).map
            fun c => ⟨c, s.flags ||| FLAG_ISNOTIFYING⟩) }

/-- Reference for running outside code on an engine with table `T`: its own steps change
the world, and each of its calls back into the engine is one notification pass. -/
def Prog.specRun (E : Engine W Name Slot Field NL) (T : SoEngineOutputData Name Slot) :
    Prog W NL → St W Slot Field NL → St W Slot Field NL
  | .done, s => s
  | .act f k, s => Prog.specRun E T k { s with world := f s.world }
  | .look k, s => Prog.specRun E T (k s.world) s
  | .notify nl k, s => Prog.specRun E T k (specNotify E T nl s)

/-- Reference for one call out of the engine: the call is recorded with the flags word of
that moment, and then the called code runs to its end. -/
def specCall (E : Engine W Name Slot Field NL) (T : SoEngineOutputData Name Slot)
    (s : St W Slot Field NL) (cp : Call Slot Field NL × Prog W NL) : St W Slot Field NL :=
  cp.2.specRun E T { s with trace := s.trace ++ [⟨cp.1, s.flags⟩] }

/-- Reference for the evaluation bracket, following the specification (4.6): every output
slot in table order is marked about to be written, then the subclass `evaluate` runs, then
every output slot in table order is marked done writing. Each entry is the call and the
code it runs. -/
def specBracket (E : Engine W Name Slot Field NL) (T : SoEngineOutputData Name Slot) :
    List (Call Slot Field NL × Prog W NL) :=
  ((List.range T.getNumOutputs).map fun i =>
      (Call.prepareToWrite (T.getOutput i), E.prepareToWrite (T.getOutput i))) ++
    [(Call.evaluate, E.evaluate)] ++
    ((List.range T.getNumOutputs).map fun i =>
      (Call.doneWriting (T.getOutput i), E.doneWriting (T.getOutput i)))

/-- Reference for `evaluateWrapper`: the calls of the bracket, one after the other, and
nothing else. -/
def specEvaluateWrapper (E : Engine W Name Slot Field NL) (T : SoEngineOutputData Name Slot)
    (s : St W Slot Field NL) : St W Slot Field NL :=
  (specBracket E T).foldl (specCall E T) s

/-- Reference for `destroy`, following the specification (4.1): one final evaluation pass,
and only then the teardown of the base class. -/
def specDestroy (E : Engine W Name Slot Field NL) (T : SoEngineOutputData Name Slot)
    (s : St W Slot Field NL) : St W Slot Field NL :=
  specCall E T (specEvaluateWrapper E T s) (Call.baseDestroy, E.baseDestroy)

/-- Reference for the calls of `destroy`: the evaluation bracket, then the teardown of the
base class. -/
def specDestroyCalls (E : Engine W Name Slot Field NL) (T : SoEngineOutputData Name Slot) :
    List (Call Slot Field NL × Prog W NL) :=
  specBracket E T ++ [(Call.baseDestroy, E.baseDestroy)]

/-- Outside code that never calls back into `notify` of the engine. -/
def Prog.NoReentry : Prog W NL → Prop
  | .done => True
  | .act _ k => Prog.NoReentry k
  | .look k => ∀ w, Prog.NoReentry (k w)
  | .notify _ _ => False

end

/-! ## Concrete engines -/

/-- A table with two outputs: names `10, 11`, slots `100, 101`. -/
def demoTable : SoEngineOutputData Nat Nat :=
  { getNumOutputs := 2, getOutput := fun i => 100 + i, getOutputName := fun i => 10 + i }

/-- An engine with two outputs whose `inputChanged`, `touchSlaves` and `doneWriting` hooks all
call `notify` on the engine again. The world is a counter; notification is enabled when it
is even. -/
def demo : Engine Nat Nat Nat Nat Nat :=
  { getOutputData := some demoTable
    isNotifyEnabled := fun w => w % 2 == 0
    getLastField := fun nl => nl + 1
    inputChanged := fun _ => .notify 7 (.act (fun w => w + 1) .done)
    evaluate := .act (fun w => w + 10) .done
    touchSlaves := fun _ nl _ => .act (fun w => w + 1) (.notify nl .done)
    prepareToWrite := fun _ => .done
    doneWriting := fun _ => .notify 3 .done
    baseDestroy := .done }

/-- The base class on its own: `getOutputDataPtr` returns `NULL`, `inputChanged` does
nothing. -/
def bare : Engine Nat Nat Nat Nat Nat :=
  { getOutputData := none
    isNotifyEnabled := fun w => w % 2 == 0
    getLastField := fun nl => nl + 1
    inputChanged := fun _ => .done
    evaluate := .act (fun w => w + 10) .done
    touchSlaves := fun _ _ _ => .done
    prepareToWrite := fun _ => .done
    doneWriting := fun _ => .done
    baseDestroy := .done }

/-- A freshly constructed engine in world `0`. -/
def fresh : St Nat Nat Nat Nat := construct 0

/-- An engine in the middle of a notification pass. -/
def inFlight : St Nat Nat Nat Nat := { flags := 1, world := 0, trace := [] }

/-! ## Lemmas -/

theorem mask_testBit (j : Nat) : Nat.testBit 4294967294 j = (decide (1 ≤ j) && decide (j < 32)) := by
  by_cases h : j < 32
  · interval_cases j <;> decide
  · have : (4294967294 : Nat) < 2 ^ j :=
      lt_of_lt_of_le (by norm_num) (Nat.pow_le_pow_right (by norm_num) (not_lt.mp h))
    rw [Nat.testBit_lt_two_pow this]
    simp [h]

theorem one_testBit (j : Nat) : Nat.testBit 1 j = decide (j = 0) := by
  cases j with
  | zero => rfl
  | succ j => simp [Nat.testBit_succ]

theorem flag_roundtrip (x : Nat) (hlt : x < 2 ^ 32) (h0 : x &&& FLAG_ISNOTIFYING = 0) :
    (x ||| FLAG_ISNOTIFYING) &&& NOT_FLAG_ISNOTIFYING = x := by
  apply Nat.eq_of_testBit_eq
  intro j
  have hx0 : Nat.testBit x 0 = false := by
    have := congrArg (fun y => Nat.testBit y 0) h0
    simpa [Nat.testBit_and, FLAG_ISNOTIFYING, one_testBit] using this
  simp only [Nat.testBit_and, Nat.testBit_or, FLAG_ISNOTIFYING, NOT_FLAG_ISNOTIFYING]
  norm_num only [mask_testBit, one_testBit]
  by_cases hj0 : j = 0
  · subst hj0; simp [hx0]
  · by_cases hj : j < 32
    · have : 1 ≤ j := by omega
      simp [hj0, hj, this]
    · have : x < 2 ^ j :=
        lt_of_lt_of_le hlt (Nat.pow_le_pow_right (by norm_num) (not_lt.mp hj))
      simp [Nat.testBit_lt_two_pow this, hj]

theorem flag_set (x : Nat) : ((x ||| FLAG_ISNOTIFYING) &&& FLAG_ISNOTIFYING != 0) = true := by
  have h : Nat.testBit ((x ||| FLAG_ISNOTIFYING) &&& FLAG_ISNOTIFYING) 0 = true := by
    simp [Nat.testBit_and, Nat.testBit_or, FLAG_ISNOTIFYING, one_testBit]
  rw [bne_iff_ne]
  intro h2
  rw [h2] at h
  simp at h

theorem flag_cleared (x : Nat) : ((x &&& NOT_FLAG_ISNOTIFYING) &&& FLAG_ISNOTIFYING != 0) = false := by
  have h : (x &&& NOT_FLAG_ISNOTIFYING) &&& FLAG_ISNOTIFYING = 0 := by
    apply Nat.eq_of_testBit_eq
    intro j
    simp only [Nat.testBit_and, FLAG_ISNOTIFYING, NOT_FLAG_ISNOTIFYING]
    norm_num only [mask_testBit, one_testBit]
    by_cases hj0 : j = 0
    · subst hj0; simp
    · simp [hj0]
  simp [h]

section
variable {W Name Slot Field NL : Type}

theorem getOutputsLoop_eq (outputs : SoEngineOutputData Name Slot) (k i : Nat) (l : List Slot) :
    getOutputsLoop outputs k i l = l ++ (List.range' i k).map outputs.getOutput := by
  induction k generalizing i l with
  | zero => simp [getOutputsLoop]
  | succ k ih => simp [getOutputsLoop, ih, List.range'_succ]

theorem getOutputLoop_none [DecidableEq Name] (outputs : SoEngineOutputData Name Slot)
    (s : Name) (k i : Nat) :
    getOutputLoop outputs s k i = none ↔ ∀ j, j < k → outputs.getOutputName (i + j) ≠ s := by
  induction k generalizing i with
  | zero => simp [getOutputLoop]
  | succ k ih =>
    unfold getOutputLoop
    by_cases h : outputs.getOutputName i = s
    · simp only [h, if_true]
      constructor
      · intro h0; cases h0
      · intro h0; exact absurd h (by simpa using h0 0 (Nat.succ_pos k))
    · simp only [h, if_false, ih]
      constructor
      · intro h0 j hj
        cases j with
        | zero => simpa using h
        | succ j =>
          have := h0 j (by omega)
          rwa [show i + 1 + j = i + (j + 1) by omega] at this
      · intro h0 j hj
        have := h0 (j + 1) (by omega)
        rwa [show i + (j + 1) = i + 1 + j by omega] at this

theorem getOutputLoop_first [DecidableEq Name] (outputs : SoEngineOutputData Name Slot)
    (s : Name) (k i j : Nat) (hj : j < k) (hs : outputs.getOutputName (i + j) = s)
    (hmin : ∀ m, m < j → outputs.getOutputName (i + m) ≠ s) :
    getOutputLoop outputs s k i = some (outputs.getOutput (i + j)) := by
  induction k generalizing i j with
  | zero => omega
  | succ k ih =>
    unfold getOutputLoop
    cases j with
    | zero => simp at hs; simp [hs]
    | succ j =>
      have h0 : outputs.getOutputName i ≠ s := by simpa using hmin 0 (Nat.succ_pos j)
      simp only [h0, if_false]
      rw [show i + (j + 1) = i + 1 + j by omega] at hs ⊢
      apply ih (i + 1) j (by omega) hs
      intro m hm
      have := hmin (m + 1) (by omega)
      rwa [show i + (m + 1) = i + 1 + m by omega] at this

theorem exists_first (p : Nat → Prop) (n : Nat) (h : ∃ i, i < n ∧ p i) :
    ∃ i, i < n ∧ p i ∧ ∀ j, j < i → ¬ p j := by
  classical
  have h2 : ∃ i, p i := h.elim fun i hi => ⟨i, hi.2⟩
  obtain ⟨i, hi, hp⟩ := h
  refine ⟨Nat.find h2, ?_, Nat.find_spec h2, fun j hj => Nat.find_min h2 hj⟩
  exact lt_of_le_of_lt (Nat.find_min' h2 hp) hi

theorem getOutputNameLoop_nomatch [DecidableEq Slot] (outputs : SoEngineOutputData Name Slot)
    (o : Slot) (nm : Name) (k i : Nat)
    (h : ∀ j, j < k → outputs.getOutput (i + j) ≠ o) :
    getOutputNameLoop outputs o nm k i = (false, nm) := by
  induction k generalizing i with
  | zero => rfl
  | succ k ih =>
    unfold getOutputNameLoop
    have h0 : outputs.getOutput i ≠ o := by simpa using h 0 (Nat.succ_pos k)
    simp only [h0, if_false]
    apply ih
    intro j hj
    have := h (j + 1) (by omega)
    rwa [show i + (j + 1) = i + 1 + j by omega] at this

theorem getOutputNameLoop_first [DecidableEq Slot] (outputs : SoEngineOutputData Name Slot)
    (o : Slot) (nm : Name) (k i j : Nat) (hj : j < k) (hs : outputs.getOutput (i + j) = o)
    (hmin : ∀ m, m < j → outputs.getOutput (i + m) ≠ o) :
    getOutputNameLoop outputs o nm k i = (true, outputs.getOutputName (i + j)) := by
  induction k generalizing i j with
  | zero => omega
  | succ k ih =>
    unfold getOutputNameLoop
    cases j with
    | zero => simp at hs; simp [hs]
    | succ j =>
      have h0 : outputs.getOutput i ≠ o := by simpa using hmin 0 (Nat.succ_pos j)
      simp only [h0, if_false]
      rw [show i + (j + 1) = i + 1 + j by omega] at hs ⊢
      apply ih (i + 1) j (by omega) hs
      intro m hm
      have := hmin (m + 1) (by omega)
      rwa [show i + (m + 1) = i + 1 + m by omega] at this

theorem getOutputs_some (E : Engine W Name Slot Field NL) (T : SoEngineOutputData Name Slot)
    (hT : E.getOutputData = some T) (l : List Slot) :
    getOutputs E l = .ok (T.getNumOutputs, getOutputsLoop T T.getNumOutputs 0 l) := by
  simp [getOutputs, hT, deref, Except.bind]

theorem getOutput_some [DecidableEq Name] (E : Engine W Name Slot Field NL)
    (T : SoEngineOutputData Name Slot) (hT : E.getOutputData = some T) (s : Name) :
    getOutput E s = .ok (getOutputLoop T s T.getNumOutputs 0) := by
  simp [getOutput, hT, deref, Except.bind]

theorem getOutputName_some [DecidableEq Slot] (E : Engine W Name Slot Field NL)
    (T : SoEngineOutputData Name Slot) (hT : E.getOutputData = some T) (o : Slot) (nm : Name) :
    getOutputName E o nm = .ok (getOutputNameLoop T o nm T.getNumOutputs 0) := by
  simp [getOutputName, hT, deref, Except.bind]


theorem notify_guard (E : Engine W Name Slot Field NL) (fuel : Nat) (nl : NL)
    (s : St W Slot Field NL) (h : isNotifying s = true) :
    notify E (fuel + 1) nl s = .ok s := by
  simp [notify, h]

theorem run_guarded (nfy : NL → St W Slot Field NL → Res (St W Slot Field NL))
    (hn : ∀ nl t, isNotifying t = true → nfy nl t = .ok t)
    (p : Prog W NL) (s : St W Slot Field NL) (h : isNotifying s = true) :
    p.run nfy s = .ok { s with world := p.effect s.world } := by
  induction p generalizing s with
  | done => rfl
  | act f k ih =>
    simp only [Prog.run, Prog.effect]
    rw [ih _ (by simpa [isNotifying] using h)]
  | look k ih =>
    simp only [Prog.run, Prog.effect]
    rw [ih _ _ h]
  | notify nl k ih =>
    simp only [Prog.run, Prog.effect]
    rw [hn nl s h]
    simp only [Res.bind]
    rw [ih _ h]

theorem callOut_guarded (nfy : NL → St W Slot Field NL → Res (St W Slot Field NL))
    (hn : ∀ nl t, isNotifying t = true → nfy nl t = .ok t)
    (c : Call Slot Field NL) (p : Prog W NL) (s : St W Slot Field NL)
    (h : isNotifying s = true) :
    callOut nfy c p s =
      .ok { flags := s.flags, world := p.effect s.world, trace := s.trace ++ [⟨c, s.flags⟩] } := by
  unfold callOut
  rw [run_guarded nfy hn p _ (by simpa [isNotifying] using h)]

theorem touchLoop_guarded (E : Engine W Name Slot Field NL)
    (nfy : NL → St W Slot Field NL → Res (St W Slot Field NL))
    (hn : ∀ nl t, isNotifying t = true → nfy nl t = .ok t)
    (T : SoEngineOutputData Name Slot) (nl : NL) (k i : Nat) (s : St W Slot Field NL)
    (h : isNotifying s = true) :
    touchLoop E nfy T nl k i s =
      .ok { flags := s.flags, world := specTouchWorld E T nl k i s.world,
            trace := s.trace ++
              (specTouchCalls E T nl k i s.world).map fun c => ⟨c, s.flags⟩ } := by
  induction k generalizing i s with
  | zero => simp [touchLoop, specTouchWorld, specTouchCalls]
  | succ k ih =>
    simp only [touchLoop, specTouchWorld, specTouchCalls]
    rw [callOut_guarded nfy hn _ _ s h]
    simp only [Res.bind]
    rw [ih _ _ (by simpa [isNotifying] using h)]
    simp

theorem specTouchCalls_touched (E : Engine W Name Slot Field NL)
    (T : SoEngineOutputData Name Slot) (nl : NL) (k i : Nat) (w : W) :
    (specTouchCalls E T nl k i w).map Call.touched =
      (List.range' i k).map fun j => some (T.getOutput j) := by
  induction k generalizing i w with
  | zero => simp [specTouchCalls]
  | succ k ih => simp [specTouchCalls, Call.touched, ih, List.range'_succ]

theorem notify_clear_eq (E : Engine W Name Slot Field NL) (T : SoEngineOutputData Name Slot)
    (hT : E.getOutputData = some T) (fuel : Nat) (nl : NL) (s : St W Slot Field NL)
    (hclear : isNotifying s = false) :
    notify E (fuel + 2) nl s =
      .ok { flags := (s.flags ||| FLAG_ISNOTIFYING) &&& NOT_FLAG_ISNOTIFYING,
            world := specTouchWorld E T nl T.getNumOutputs 0
              ((E.inputChanged (E.getLastField nl)).effect s.world),
            trace := s.trace ++
              (⟨.inputChanged (E.getLastField nl), s.flags ||| FLAG_ISNOTIFYING⟩ ::
                (specTouchCalls E T nl T.getNumOutputs 0
                  ((E.inputChanged (E.getLastField nl)).effect s.world)).map
                  fun c => ⟨c, s.flags ||| FLAG_ISNOTIFYING⟩) } := by
  have hn : ∀ (nl2 : NL) (t : St W Slot Field NL), isNotifying t = true →
      (fun nl2 t => notify E (fuel + 1) nl2 t) nl2 t = .ok t :=
    fun nl2 t ht => notify_guard E fuel nl2 t ht
  rw [notify]
  simp only [hclear, Bool.false_eq_true, if_false]
  rw [callOut_guarded _ hn _ _ _ (by simp [isNotifying, flag_set])]
  simp only [Res.bind, hT]
  rw [touchLoop_guarded E _ hn T nl _ _ _ (by simp [isNotifying, flag_set])]
  simp [Res.bind]

theorem evalCalls_append (a b : List (Logged Slot Field NL)) :
    evalCalls (a ++ b) = evalCalls a ++ evalCalls b := by
  simp [evalCalls]

theorem evalCalls_touches (E : Engine W Name Slot Field NL) (T : SoEngineOutputData Name Slot)
    (nl : NL) (k i : Nat) (w : W) (fl : Nat) :
    evalCalls ((specTouchCalls E T nl k i w).map fun c => (⟨c, fl⟩ : Logged Slot Field NL)) = [] := by
  induction k generalizing i w with
  | zero => simp [specTouchCalls, evalCalls]
  | succ k ih =>
    have := ih (i + 1) ((E.touchSlaves (T.getOutput i) nl (E.isNotifyEnabled w)).effect w)
    simp only [evalCalls, List.map_map] at this
    simp [specTouchCalls, evalCalls, Call.ofEvaluation, this]

theorem notify_total (E : Engine W Name Slot Field NL) (T : SoEngineOutputData Name Slot)
    (hT : E.getOutputData = some T) (fuel : Nat) (nl : NL) (t : St W Slot Field NL) :
    ∃ t2, notify E (fuel + 2) nl t = .ok t2 ∧ evalCalls t2.trace = evalCalls t.trace := by
  cases h : isNotifying t with
  | true => exact ⟨t, notify_guard E (fuel + 1) nl t h, rfl⟩
  | false =>
    refine ⟨_, notify_clear_eq E T hT fuel nl t h, ?_⟩
    simp only [evalCalls_append]
    rw [← List.singleton_append, evalCalls_append, evalCalls_touches]
    simp [evalCalls, Call.ofEvaluation]

theorem run_eval (nfy : NL → St W Slot Field NL → Res (St W Slot Field NL))
    (hn : ∀ nl t, ∃ t2, nfy nl t = .ok t2 ∧ evalCalls t2.trace = evalCalls t.trace)
    (p : Prog W NL) (s : St W Slot Field NL) :
    ∃ s2, p.run nfy s = .ok s2 ∧ evalCalls s2.trace = evalCalls s.trace := by
  induction p generalizing s with
  | done => exact ⟨s, rfl, rfl⟩
  | act f k ih =>
    obtain ⟨s2, h1, h2⟩ := ih { s with world := f s.world }
    exact ⟨s2, by simpa [Prog.run] using h1, h2⟩
  | look k ih =>
    obtain ⟨s2, h1, h2⟩ := ih s.world s
    exact ⟨s2, by simpa [Prog.run] using h1, h2⟩
  | notify nl k ih =>
    obtain ⟨t2, h1, h2⟩ := hn nl s
    obtain ⟨s2, h3, h4⟩ := ih t2
    refine ⟨s2, ?_, h4.trans h2⟩
    simp only [Prog.run, h1, Res.bind]
    exact h3

theorem callOut_eval (nfy : NL → St W Slot Field NL → Res (St W Slot Field NL))
    (hn : ∀ nl t, ∃ t2, nfy nl t = .ok t2 ∧ evalCalls t2.trace = evalCalls t.trace)
    (c : Call Slot Field NL) (hc : c.ofEvaluation = true) (p : Prog W NL)
    (s : St W Slot Field NL) :
    ∃ s2, callOut nfy c p s = .ok s2 ∧ evalCalls s2.trace = evalCalls s.trace ++ [c] := by
  obtain ⟨s2, h1, h2⟩ := run_eval nfy hn p { s with trace := s.trace ++ [⟨c, s.flags⟩] }
  refine ⟨s2, h1, ?_⟩
  rw [h2, evalCalls_append]
  simp [evalCalls, hc]

theorem slotLoop_eval (nfy : NL → St W Slot Field NL → Res (St W Slot Field NL))
    (hn : ∀ nl t, ∃ t2, nfy nl t = .ok t2 ∧ evalCalls t2.trace = evalCalls t.trace)
    (T : SoEngineOutputData Name Slot) (mk : Slot → Call Slot Field NL)
    (hmk : ∀ o, (mk o).ofEvaluation = true) (hook : Slot → Prog W NL)
    (k i : Nat) (s : St W Slot Field NL) :
    ∃ s2, slotLoop nfy T mk hook k i s = .ok s2 ∧
      evalCalls s2.trace = evalCalls s.trace ++ (List.range' i k).map fun j => mk (T.getOutput j) := by
  induction k generalizing i s with
  | zero => exact ⟨s, rfl, by simp⟩
  | succ k ih =>
    obtain ⟨s1, h1, h2⟩ := callOut_eval nfy hn (mk (T.getOutput i)) (hmk _) (hook (T.getOutput i)) s
    obtain ⟨s2, h3, h4⟩ := ih (i + 1) s1
    refine ⟨s2, ?_, ?_⟩
    · simp only [slotLoop, h1, Res.bind]
      exact h3
    · rw [h4, h2]
      simp [List.range'_succ]

theorem evaluateWrapper_eq (E : Engine W Name Slot Field NL) (T : SoEngineOutputData Name Slot)
    (hT : E.getOutputData = some T) (fuel : Nat) (s : St W Slot Field NL) :
    ∃ s2, evaluateWrapper E (fuel + 2) s = .ok s2 ∧
      evalCalls s2.trace = evalCalls s.trace ++
        ((List.range T.getNumOutputs).map fun i => Call.prepareToWrite (T.getOutput i)) ++
        [Call.evaluate] ++
        ((List.range T.getNumOutputs).map fun i => Call.doneWriting (T.getOutput i)) := by
  have hn := notify_total E T hT fuel
  obtain ⟨s1, h1, h2⟩ := slotLoop_eval (notify E (fuel + 2)) hn T .prepareToWrite
    (fun _ => rfl) E.prepareToWrite T.getNumOutputs 0 s
  obtain ⟨s2, h3, h4⟩ := callOut_eval (notify E (fuel + 2)) hn .evaluate rfl E.evaluate s1
  obtain ⟨s3, h5, h6⟩ := slotLoop_eval (notify E (fuel + 2)) hn T .doneWriting
    (fun _ => rfl) E.doneWriting T.getNumOutputs 0 s2
  refine ⟨s3, ?_, ?_⟩
  · simp only [evaluateWrapper, hT, h1, h3, Res.bind]
    exact h5
  · rw [h6, h4, h2, List.range_eq_range']

theorem notify_spec (E : Engine W Name Slot Field NL) (T : SoEngineOutputData Name Slot)
    (hT : E.getOutputData = some T) (fuel : Nat) (nl : NL) (s : St W Slot Field NL) :
    notify E (fuel + 2) nl s = .ok (specNotify E T nl s) := by
  cases h : isNotifying s with
  | true => simp [specNotify, h, notify_guard E (fuel + 1) nl s h]
  | false => simp [specNotify, h, notify_clear_eq E T hT fuel nl s h]

theorem run_spec (E : Engine W Name Slot Field NL) (T : SoEngineOutputData Name Slot)
    (nfy : NL → St W Slot Field NL → Res (St W Slot Field NL))
    (hn : ∀ nl t, nfy nl t = .ok (specNotify E T nl t))
    (p : Prog W NL) (s : St W Slot Field NL) :
    p.run nfy s = .ok (p.specRun E T s) := by
  induction p generalizing s with
  | done => rfl
  | act f k ih => simp only [Prog.run, Prog.specRun, ih]
  | look k ih => simp only [Prog.run, Prog.specRun, ih]
  | notify nl k ih => simp only [Prog.run, Prog.specRun, hn, Res.bind, ih]

theorem callOut_spec (E : Engine W Name Slot Field NL) (T : SoEngineOutputData Name Slot)
    (nfy : NL → St W Slot Field NL → Res (St W Slot Field NL))
    (hn : ∀ nl t, nfy nl t = .ok (specNotify E T nl t))
    (c : Call Slot Field NL) (p : Prog W NL) (s : St W Slot Field NL) :
    callOut nfy c p s = .ok (specCall E T s (c, p)) := by
  simp only [callOut, specCall, run_spec E T nfy hn]

theorem slotLoop_spec (E : Engine W Name Slot Field NL) (T : SoEngineOutputData Name Slot)
    (nfy : NL → St W Slot Field NL → Res (St W Slot Field NL))
    (hn : ∀ nl t, nfy nl t = .ok (specNotify E T nl t))
    (mk : Slot → Call Slot Field NL) (hook : Slot → Prog W NL)
    (k i : Nat) (s : St W Slot Field NL) :
    slotLoop nfy T mk hook k i s =
      .ok (((List.range' i k).map fun j => (mk (T.getOutput j), hook (T.getOutput j))).foldl
        (specCall E T) s) := by
  induction k generalizing i s with
  | zero => rfl
  | succ k ih =>
    simp only [slotLoop, callOut_spec E T nfy hn, Res.bind, ih, List.range'_succ,
      List.map_cons, List.foldl_cons]

theorem evaluateWrapper_spec (E : Engine W Name Slot Field NL)
    (T : SoEngineOutputData Name Slot) (hT : E.getOutputData = some T) (fuel : Nat)
    (s : St W Slot Field NL) :
    evaluateWrapper E (fuel + 2) s = .ok (specEvaluateWrapper E T s) := by
  have hn := notify_spec E T hT fuel
  simp only [evaluateWrapper, hT, slotLoop_spec E T _ hn, callOut_spec E T _ hn, Res.bind,
    specEvaluateWrapper, specBracket, List.foldl_append, List.foldl_cons, List.foldl_nil,
    List.range_eq_range']

theorem destroy_spec (E : Engine W Name Slot Field NL)
    (T : SoEngineOutputData Name Slot) (hT : E.getOutputData = some T) (fuel : Nat)
    (s : St W Slot Field NL) :
    destroy E (fuel + 2) s = .ok (specDestroy E T s) := by
  simp only [destroy, evaluateWrapper_spec E T hT, Res.bind,
    callOut_spec E T _ (notify_spec E T hT fuel), specDestroy]

theorem specRun_plain (E : Engine W Name Slot Field NL) (T : SoEngineOutputData Name Slot)
    (p : Prog W NL) (s : St W Slot Field NL) (h : isNotifying s = true ∨ p.NoReentry) :
    p.specRun E T s = { s with world := p.effect s.world } := by
  induction p generalizing s with
  | done => rfl
  | act f k ih =>
    simp only [Prog.specRun, Prog.effect]
    rw [ih _ (by simpa [isNotifying, Prog.NoReentry] using h)]
  | look k ih =>
    simp only [Prog.specRun, Prog.effect]
    rw [ih _ _ (h.imp id fun hw => hw s.world)]
  | notify nl k ih =>
    have hg : isNotifying s = true := h.elim id fun hf => hf.elim
    simp only [Prog.specRun, Prog.effect, specNotify, hg, if_true]
    rw [ih _ (Or.inl hg)]

theorem foldl_specCall_plain (E : Engine W Name Slot Field NL)
    (T : SoEngineOutputData Name Slot) (L : List (Call Slot Field NL × Prog W NL))
    (s : St W Slot Field NL)
    (h : isNotifying s = true ∨ ∀ cp, cp ∈ L → cp.2.NoReentry) :
    L.foldl (specCall E T) s =
      { flags := s.flags
        world := L.foldl (fun w cp => cp.2.effect w) s.world
        trace := s.trace ++ L.map fun cp => ⟨cp.1, s.flags⟩ } := by
  induction L generalizing s with
  | nil => simp
  | cons cp L ih =>
    simp only [List.foldl_cons, List.map_cons]
    have h1 : specCall E T s cp =
        { flags := s.flags, world := cp.2.effect s.world,
          trace := s.trace ++ [⟨cp.1, s.flags⟩] } := by
      simp only [specCall]
      rw [specRun_plain E T _ _
        (h.imp (fun hg => by simpa [isNotifying] using hg) fun hn => hn cp (List.mem_cons_self _ _))]
    rw [h1, ih _
      (h.imp (fun hg => by simpa [isNotifying] using hg)
        fun hn cp2 hm => hn cp2 (List.mem_cons_of_mem _ hm))]
    simp

theorem specBracket_calls (E : Engine W Name Slot Field NL)
    (T : SoEngineOutputData Name Slot) :
    (specBracket E T).map Prod.fst =
      ((List.range T.getNumOutputs).map fun i => Call.prepareToWrite (T.getOutput i)) ++
        [Call.evaluate] ++
        ((List.range T.getNumOutputs).map fun i => Call.doneWriting (T.getOutput i)) := by
  simp [specBracket, Function.comp_def]

theorem evalCalls_specEvaluateWrapper (E : Engine W Name Slot Field NL)
    (T : SoEngineOutputData Name Slot) (hT : E.getOutputData = some T)
    (s : St W Slot Field NL) :
    evalCalls (specEvaluateWrapper E T s).trace =
      evalCalls s.trace ++ (specBracket E T).map Prod.fst := by
  obtain ⟨s2, h1, h2⟩ := evaluateWrapper_eq E T hT 0 s
  rw [evaluateWrapper_spec E T hT 0 s] at h1
  cases h1
  rw [h2, specBracket_calls]
  simp only [List.append_assoc]

theorem evalCalls_specDestroy (E : Engine W Name Slot Field NL)
    (T : SoEngineOutputData Name Slot) (hT : E.getOutputData = some T)
    (s : St W Slot Field NL) :
    evalCalls (specDestroy E T s).trace =
      evalCalls s.trace ++ (specBracket E T).map Prod.fst ++ [Call.baseDestroy] := by
  obtain ⟨s2, h1, h2⟩ := callOut_eval (notify E 2) (notify_total E T hT 0)
    .baseDestroy rfl E.baseDestroy (specEvaluateWrapper E T s)
  rw [callOut_spec E T _ (notify_spec E T hT 0)] at h1
  cases h1
  rw [specDestroy, h2, evalCalls_specEvaluateWrapper E T hT]

end
/-! ## Properties of the lookups -/

section
variable {W Name Slot Field NL : Type}

theorem getOutputs_eq_append (E : Engine W Name Slot Field NL)
    (T : SoEngineOutputData Name Slot) (hT : E.getOutputData = some T) (l : List Slot) :
    getOutputs E l =
      .ok (T.getNumOutputs, l ++ (List.range T.getNumOutputs).map T.getOutput) := by
  rw [getOutputs_some E T hT, getOutputsLoop_eq, List.range_eq_range']

/-- C1: for an engine whose descriptor table `T` is present and any caller list `l`,
`getOutputs` returns the number of outputs of `T`, and the list afterwards is the old `l`
followed by exactly the slots `0 .. n - 1` of `T` in table order. -/
theorem getOutputs_appends_table (E : Engine W Name Slot Field NL)
    (T : SoEngineOutputData Name Slot) (hT : E.getOutputData = some T) (l : List Slot) :
    getOutputs E l =
      .ok (T.getNumOutputs, l ++ (List.range T.getNumOutputs).map T.getOutput) :=
  getOutputs_eq_append E T hT l

/-- C2: for an engine with no descriptor table, `getOutputs` returns 0 and leaves the list
unchanged, `getOutput` returns `NULL` for every name, and `getOutputName` returns `FALSE`
for every slot and leaves the caller's name unchanged; all three return normally. -/
theorem lookups_without_table [DecidableEq Name] [DecidableEq Slot]
    (E : Engine W Name Slot Field NL) (hT : E.getOutputData = none) :
    (∀ l : List Slot, getOutputs E l = .ok (0, l)) ∧
    (∀ s : Name, getOutput E s = .ok none) ∧
    (∀ (o : Slot) (outputname : Name),
      getOutputName E o outputname = .ok (false, outputname)) := by
  refine ⟨?_, ?_, ?_⟩ <;> intros <;> simp [getOutputs, getOutput, getOutputName, hT]

/-- C3: for an engine with descriptor table `T` and a name `s`, `getOutput` returns `NULL`
exactly when no entry of `T` has name `s`, and otherwise the slot at the smallest index
whose descriptor name is `s`. -/
theorem getOutput_first_match [DecidableEq Name] (E : Engine W Name Slot Field NL)
    (T : SoEngineOutputData Name Slot) (hT : E.getOutputData = some T) (s : Name) :
    ∃ r : Option Slot, getOutput E s = .ok r ∧
      (r = none ↔ ∀ i, i < T.getNumOutputs → T.getOutputName i ≠ s) ∧
      (∀ i, i < T.getNumOutputs → T.getOutputName i = s →
        (∀ j, j < i → T.getOutputName j ≠ s) → r = some (T.getOutput i)) := by
  refine ⟨_, getOutput_some E T hT s, ?_, ?_⟩
  · simpa using getOutputLoop_none T s T.getNumOutputs 0
  · intro i hi hs hmin
    have := getOutputLoop_first T s T.getNumOutputs 0 i hi (by simpa using hs)
      (by simpa using hmin)
    simpa using this

/-- C4: for an engine with descriptor table `T` and a slot `o`, `getOutputName` returns
`TRUE` exactly when `o` is one of the slots of `T`; then the name is the descriptor name at
the smallest index whose slot is `o`; when it returns `FALSE` the caller's name variable
is unchanged. -/
theorem getOutputName_first_match [DecidableEq Slot] (E : Engine W Name Slot Field NL)
    (T : SoEngineOutputData Name Slot) (hT : E.getOutputData = some T) (o : Slot)
    (outputname : Name) :
    ∃ (b : Bool) (nm : Name), getOutputName E o outputname = .ok (b, nm) ∧
      (b = true ↔ ∃ i, i < T.getNumOutputs ∧ T.getOutput i = o) ∧
      (∀ i, i < T.getNumOutputs → T.getOutput i = o →
        (∀ j, j < i → T.getOutput j ≠ o) → nm = T.getOutputName i) ∧
      (b = false → nm = outputname) := by
  refine ⟨_, _, getOutputName_some E T hT o outputname, ?_, ?_, ?_⟩
  · constructor
    · intro hb
      by_contra hne
      have := getOutputNameLoop_nomatch T o outputname T.getNumOutputs 0
        (fun j hj hj2 => hne ⟨j, hj, by simpa using hj2⟩)
      rw [this] at hb
      cases hb
    · intro hex
      obtain ⟨i, hi, hs, hmin⟩ := exists_first (fun i => T.getOutput i = o) _ hex
      rw [getOutputNameLoop_first T o outputname T.getNumOutputs 0 i hi (by simpa using hs)
        (by simpa using hmin)]
  · intro i hi hs hmin
    rw [getOutputNameLoop_first T o outputname T.getNumOutputs 0 i hi (by simpa using hs)
      (by simpa using hmin)]
    simp
  · intro hb
    by_cases hex : ∃ i, i < T.getNumOutputs ∧ T.getOutput i = o
    · obtain ⟨i, hi, hs, hmin⟩ := exists_first (fun i => T.getOutput i = o) _ hex
      rw [getOutputNameLoop_first T o outputname T.getNumOutputs 0 i hi (by simpa using hs)
        (by simpa using hmin)] at hb
      cases hb
    · rw [getOutputNameLoop_nomatch T o outputname T.getNumOutputs 0
        (fun j hj hj2 => hex ⟨j, hj, by simpa using hj2⟩)]

/-- C5: for an engine with descriptor table `T` whose slots are pairwise distinct and an
index `i` below the number of outputs, `getOutputName` on the `i`-th slot appended by
`getOutputs` returns `TRUE` and yields the `i`-th descriptor name of `T`. -/
theorem getOutputName_of_getOutputs [DecidableEq Slot] (E : Engine W Name Slot Field NL)
    (T : SoEngineOutputData Name Slot) (hT : E.getOutputData = some T)
    (hdistinct : ∀ i j, i < T.getNumOutputs → j < T.getNumOutputs →
      T.getOutput i = T.getOutput j → i = j)
    (i : Nat) (hi : i < T.getNumOutputs) (l : List Slot) (outputname : Name) :
    ∃ (l2 : List Slot) (o : Slot), getOutputs E l = .ok (T.getNumOutputs, l2) ∧
      l2[l.length + i]? = some o ∧
      getOutputName E o outputname = .ok (true, T.getOutputName i) := by
  refine ⟨_, T.getOutput i, getOutputs_eq_append E T hT l, ?_, ?_⟩
  · rw [List.getElem?_append_right (by omega)]
    simp [hi]
  · rw [getOutputName_some E T hT]
    have := getOutputNameLoop_first T (T.getOutput i) outputname T.getNumOutputs 0 i hi
      (by simp) (by
        intro m hm hcontra
        have := hdistinct m i (by omega) hi (by simpa using hcontra)
        omega)
    simpa using this

/-! ## Properties of notification -/

/-- C6: a `notify` entered with the is-notifying flag set returns at once with the engine
unchanged (no `inputChanged`, no `touchSlaves`, same flags); so whatever outside code runs
while a pass is in flight, its calls back into `notify` add no call and leave the flags
alone; and a pass entered with the flag clear, whatever its hooks re-enter, calls
`inputChanged` once, then touches each output exactly once, in table order, and returns
with the flag clear. -/
theorem notify_reentrancy (E : Engine W Name Slot Field NL) (fuel : Nat) :
    (∀ (nl : NL) (t : St W Slot Field NL), isNotifying t = true →
      notify E (fuel + 1) nl t = .ok t) ∧
    (∀ (p : Prog W NL) (t : St W Slot Field NL), isNotifying t = true →
      ∃ t2, p.run (notify E (fuel + 1)) t = .ok t2 ∧
        t2.flags = t.flags ∧ t2.trace = t.trace) ∧
    (∀ (T : SoEngineOutputData Name Slot) (nl : NL) (s : St W Slot Field NL),
      E.getOutputData = some T → isNotifying s = false →
      ∃ s2 touches, notify E (fuel + 2) nl s = .ok s2 ∧ isNotifying s2 = false ∧
        s2.trace = s.trace ++
          ⟨.inputChanged (E.getLastField nl), s.flags ||| FLAG_ISNOTIFYING⟩ :: touches ∧
        (touches.map fun e => e.call.touched) =
          (List.range T.getNumOutputs).map fun i => some (T.getOutput i)) := by
  refine ⟨fun nl t h => notify_guard E fuel nl t h, ?_, ?_⟩
  · intro p t h
    exact ⟨_, run_guarded (notify E (fuel + 1)) (fun nl t h => notify_guard E fuel nl t h) p t h,
      rfl, rfl⟩
  · intro T nl s hT hclear
    refine ⟨_, _, notify_clear_eq E T hT fuel nl s hclear, ?_, rfl, ?_⟩
    · simp only [isNotifying]
      exact flag_cleared _
    · rw [List.map_map, List.range_eq_range',
        ← specTouchCalls_touched E T nl T.getNumOutputs 0
          ((E.inputChanged (E.getLastField nl)).effect s.world)]
      rfl

/-- C9: a `notify` entered with the flag clear on an engine whose table has `n` outputs
returns normally; it calls `inputChanged` once with the last field of the list and then
`touchSlaves` once per slot `0 .. n - 1` in table order, each with the list and the
notify-enabled state read just before that call; every one of these calls is made with
the flag set, outside code running with the flag set leaves the flags word alone, and on
return the flags word is what it was on entry (flag clear, no other bit changed). -/
theorem notify_pass (E : Engine W Name Slot Field NL) (T : SoEngineOutputData Name Slot)
    (hT : E.getOutputData = some T) (fuel : Nat) (nl : NL) (s : St W Slot Field NL)
    (hclear : isNotifying s = false) (hlt : s.flags < 2 ^ 32) :
    notify E (fuel + 2) nl s =
      .ok { flags := s.flags,
            world := specTouchWorld E T nl T.getNumOutputs 0
              ((E.inputChanged (E.getLastField nl)).effect s.world),
            trace := s.trace ++
              (⟨.inputChanged (E.getLastField nl), s.flags ||| FLAG_ISNOTIFYING⟩ ::
                (specTouchCalls E T nl T.getNumOutputs 0
                  ((E.inputChanged (E.getLastField nl)).effect s.world)).map
                  fun c => ⟨c, s.flags ||| FLAG_ISNOTIFYING⟩) } ∧
    ((specTouchCalls E T nl T.getNumOutputs 0
        ((E.inputChanged (E.getLastField nl)).effect s.world)).map Call.touched =
      (List.range T.getNumOutputs).map fun i => some (T.getOutput i)) ∧
    ((s.flags ||| FLAG_ISNOTIFYING) &&& FLAG_ISNOTIFYING != 0) = true ∧
    (∀ (p : Prog W NL) (t : St W Slot Field NL), isNotifying t = true →
      ∃ t2, p.run (notify E (fuel + 1)) t = .ok t2 ∧ t2.flags = t.flags) := by
  refine ⟨?_, ?_, flag_set _, ?_⟩
  · rw [notify_clear_eq E T hT fuel nl s hclear,
      flag_roundtrip s.flags hlt (by simpa [isNotifying] using hclear)]
  · rw [List.range_eq_range']
    exact specTouchCalls_touched E T nl T.getNumOutputs 0 _
  · intro p t h
    exact ⟨_, run_guarded (notify E (fuel + 1)) (fun nl t h => notify_guard E fuel nl t h) p t h,
      rfl⟩

/-! ## Properties of evaluation and destruction -/

/-- C7: for an engine with a descriptor table of `n` outputs, `evaluateWrapper` returns
normally and does exactly what the reference bracket does: it calls and runs
`prepareToWrite` on the slots `0 .. n - 1` in table order, then `evaluate` once, then
`doneWriting` on the slots `0 .. n - 1` in table order, and nothing else; so no
`doneWriting` comes before `evaluate` has returned. When none of the called code re-enters
`notify` (or a pass is in flight), the state on return is the old one with exactly these
calls added to the trace and their effects applied to the world in that order. -/
theorem evaluateWrapper_bracket (E : Engine W Name Slot Field NL)
    (T : SoEngineOutputData Name Slot) (hT : E.getOutputData = some T) (fuel : Nat)
    (s : St W Slot Field NL) :
    evaluateWrapper E (fuel + 2) s = .ok (specEvaluateWrapper E T s) ∧
    (specBracket E T).map Prod.fst =
      ((List.range T.getNumOutputs).map fun i => Call.prepareToWrite (T.getOutput i)) ++
        [Call.evaluate] ++
        ((List.range T.getNumOutputs).map fun i => Call.doneWriting (T.getOutput i)) ∧
    evalCalls (specEvaluateWrapper E T s).trace =
      evalCalls s.trace ++ (specBracket E T).map Prod.fst ∧
    ((isNotifying s = true ∨ ∀ cp, cp ∈ specBracket E T → cp.2.NoReentry) →
      specEvaluateWrapper E T s =
        { flags := s.flags
          world := (specBracket E T).foldl (fun w cp => cp.2.effect w) s.world
          trace := s.trace ++ (specBracket E T).map fun cp => ⟨cp.1, s.flags⟩ }) :=
  ⟨evaluateWrapper_spec E T hT fuel s, specBracket_calls E T,
    evalCalls_specEvaluateWrapper E T hT s,
    fun h => foldl_specCall_plain E T (specBracket E T) s h⟩

/-- C8: for an engine with a descriptor table, `destroy` returns normally and does exactly
this: one complete `evaluateWrapper` pass (`prepareToWrite` on all slots, `evaluate`,
`doneWriting` on all slots), and then, from the state that pass returned, the base-class
teardown, called and run once as the last call. When none of the called code re-enters
`notify` (or a pass is in flight), the state on return is the old one with exactly the
calls of the bracket followed by the teardown added to the trace and their effects
applied to the world in that order. -/
theorem destroy_order (E : Engine W Name Slot Field NL)
    (T : SoEngineOutputData Name Slot) (hT : E.getOutputData = some T) (fuel : Nat)
    (s : St W Slot Field NL) :
    destroy E (fuel + 2) s = .ok (specDestroy E T s) ∧
    evaluateWrapper E (fuel + 2) s = .ok (specEvaluateWrapper E T s) ∧
    specDestroy E T s =
      E.baseDestroy.specRun E T
        { specEvaluateWrapper E T s with
          trace := (specEvaluateWrapper E T s).trace ++
            [⟨Call.baseDestroy, (specEvaluateWrapper E T s).flags⟩] } ∧
    evalCalls (specDestroy E T s).trace =
      evalCalls s.trace ++
        (((List.range T.getNumOutputs).map fun i => Call.prepareToWrite (T.getOutput i)) ++
          [Call.evaluate] ++
          ((List.range T.getNumOutputs).map fun i => Call.doneWriting (T.getOutput i))) ++
        [Call.baseDestroy] ∧
    ((isNotifying s = true ∨ ∀ cp, cp ∈ specDestroyCalls E T → cp.2.NoReentry) →
      specDestroy E T s =
        { flags := s.flags
          world := (specDestroyCalls E T).foldl (fun w cp => cp.2.effect w) s.world
          trace := s.trace ++ (specDestroyCalls E T).map fun cp => ⟨cp.1, s.flags⟩ }) := by
  refine ⟨destroy_spec E T hT fuel s, evaluateWrapper_spec E T hT fuel s, rfl, ?_, ?_⟩
  · rw [evalCalls_specDestroy E T hT s, specBracket_calls]
  · intro h
    rw [← foldl_specCall_plain E T _ s h]
    simp [specDestroy, specEvaluateWrapper, specDestroyCalls, List.foldl_append]

end

/-! ## The properties at concrete engines -/

theorem getOutputs_appends_table_witness :
    demo.getOutputData = some demoTable ∧
    getOutputs demo [1, 2] = .ok (2, [1, 2, 100, 101]) :=
  ⟨rfl, getOutputs_appends_table demo demoTable rfl [1, 2]⟩

theorem lookups_without_table_witness :
    bare.getOutputData = none ∧
    getOutputs bare [1, 2] = .ok (0, [1, 2]) ∧
    getOutput bare 10 = .ok none ∧
    getOutputName bare 100 7 = .ok (false, 7) :=
  ⟨rfl, (lookups_without_table bare rfl).1 [1, 2], (lookups_without_table bare rfl).2.1 10,
    (lookups_without_table bare rfl).2.2 100 7⟩

theorem getOutput_first_match_witness :
    demo.getOutputData = some demoTable ∧
    ∃ r : Option Nat, getOutput demo 11 = .ok r ∧
      (r = none ↔ ∀ i, i < demoTable.getNumOutputs → demoTable.getOutputName i ≠ 11) ∧
      (∀ i, i < demoTable.getNumOutputs → demoTable.getOutputName i = 11 →
        (∀ j, j < i → demoTable.getOutputName j ≠ 11) → r = some (demoTable.getOutput i)) :=
  ⟨rfl, getOutput_first_match demo demoTable rfl 11⟩

theorem getOutputName_first_match_witness :
    demo.getOutputData = some demoTable ∧
    ∃ (b : Bool) (nm : Nat), getOutputName demo 101 7 = .ok (b, nm) ∧
      (b = true ↔ ∃ i, i < demoTable.getNumOutputs ∧ demoTable.getOutput i = 101) ∧
      (∀ i, i < demoTable.getNumOutputs → demoTable.getOutput i = 101 →
        (∀ j, j < i → demoTable.getOutput j ≠ 101) → nm = demoTable.getOutputName i) ∧
      (b = false → nm = 7) :=
  ⟨rfl, getOutputName_first_match demo demoTable rfl 101 7⟩

theorem getOutputName_of_getOutputs_witness :
    demo.getOutputData = some demoTable ∧
    (∀ i j, i < demoTable.getNumOutputs → j < demoTable.getNumOutputs →
      demoTable.getOutput i = demoTable.getOutput j → i = j) ∧
    1 < demoTable.getNumOutputs ∧
    ∃ (l2 : List Nat) (o : Nat), getOutputs demo [1, 2] = .ok (demoTable.getNumOutputs, l2) ∧
      l2[[1, 2].length + 1]? = some o ∧
      getOutputName demo o 7 = .ok (true, demoTable.getOutputName 1) :=
  ⟨rfl, fun _ _ _ _ h => by simpa [demoTable] using h, by decide,
    getOutputName_of_getOutputs demo demoTable rfl
      (fun _ _ _ _ h => by simpa [demoTable] using h) 1 (by decide) [1, 2] 7⟩

theorem notify_reentrancy_witness :
    isNotifying inFlight = true ∧
    notify demo 1 5 inFlight = .ok inFlight ∧
    (∃ t2, (demo.inputChanged 6).run (notify demo 1) inFlight = .ok t2 ∧
      t2.flags = inFlight.flags ∧ t2.trace = inFlight.trace) ∧
    demo.getOutputData = some demoTable ∧
    isNotifying fresh = false ∧
    ∃ s2 touches, notify demo 2 5 fresh = .ok s2 ∧ isNotifying s2 = false ∧
      s2.trace = fresh.trace ++
        ⟨.inputChanged (demo.getLastField 5), fresh.flags ||| FLAG_ISNOTIFYING⟩ :: touches ∧
      (touches.map fun e => e.call.touched) =
        (List.range demoTable.getNumOutputs).map fun i => some (demoTable.getOutput i) :=
  ⟨rfl, (notify_reentrancy demo 0).1 5 inFlight rfl,
    (notify_reentrancy demo 0).2.1 (demo.inputChanged 6) inFlight rfl, rfl, rfl,
    (notify_reentrancy demo 0).2.2 demoTable 5 fresh rfl rfl⟩

theorem notify_pass_witness :
    demo.getOutputData = some demoTable ∧
    isNotifying fresh = false ∧
    fresh.flags < 2 ^ 32 ∧
    notify demo 2 5 fresh =
      .ok { flags := 0, world := 3,
            trace := [⟨.inputChanged 6, 1⟩, ⟨.touchSlaves 100 5 false, 1⟩,
              ⟨.touchSlaves 101 5 true, 1⟩] } :=
  ⟨rfl, rfl, by decide, (notify_pass demo demoTable rfl 0 5 fresh rfl (by decide)).1⟩

theorem evaluateWrapper_bracket_witness :
    demo.getOutputData = some demoTable ∧
    evaluateWrapper demo 2 fresh =
      .ok { flags := 0, world := 16,
            trace := [⟨.prepareToWrite 100, 0⟩, ⟨.prepareToWrite 101, 0⟩, ⟨.evaluate, 0⟩,
              ⟨.doneWriting 100, 0⟩, ⟨.inputChanged 4, 1⟩, ⟨.touchSlaves 100 3 false, 1⟩,
              ⟨.touchSlaves 101 3 true, 1⟩, ⟨.doneWriting 101, 0⟩, ⟨.inputChanged 4, 1⟩,
              ⟨.touchSlaves 100 3 true, 1⟩, ⟨.touchSlaves 101 3 false, 1⟩] } ∧
    isNotifying inFlight = true ∧
    evaluateWrapper demo 2 inFlight =
      .ok { flags := 1, world := 10,
            trace := [⟨.prepareToWrite 100, 1⟩, ⟨.prepareToWrite 101, 1⟩, ⟨.evaluate, 1⟩,
              ⟨.doneWriting 100, 1⟩, ⟨.doneWriting 101, 1⟩] } :=
  ⟨rfl, (evaluateWrapper_bracket demo demoTable rfl 0 fresh).1, rfl,
    (evaluateWrapper_bracket demo demoTable rfl 0 inFlight).1⟩

theorem destroy_order_witness :
    demo.getOutputData = some demoTable ∧
    destroy demo 2 fresh =
      .ok { flags := 0, world := 16,
            trace := [⟨.prepareToWrite 100, 0⟩, ⟨.prepareToWrite 101, 0⟩, ⟨.evaluate, 0⟩,
              ⟨.doneWriting 100, 0⟩, ⟨.inputChanged 4, 1⟩, ⟨.touchSlaves 100 3 false, 1⟩,
              ⟨.touchSlaves 101 3 true, 1⟩, ⟨.doneWriting 101, 0⟩, ⟨.inputChanged 4, 1⟩,
              ⟨.touchSlaves 100 3 true, 1⟩, ⟨.touchSlaves 101 3 false, 1⟩,
              ⟨.baseDestroy, 0⟩] } ∧
    isNotifying inFlight = true ∧
    specDestroy demo demoTable inFlight =
      { flags := 1, world := 10,
        trace := [⟨.prepareToWrite 100, 1⟩, ⟨.prepareToWrite 101, 1⟩, ⟨.evaluate, 1⟩,
          ⟨.doneWriting 100, 1⟩, ⟨.doneWriting 101, 1⟩, ⟨.baseDestroy, 1⟩] } :=
  ⟨rfl, (destroy_order demo demoTable rfl 0 fresh).1, rfl,
    (destroy_order demo demoTable rfl 0 inFlight).2.2.2.2 (Or.inl rfl)⟩

end SoNodeEngine
